import Mathlib

/-!
Verification of the Caesar-cipher transform `caesar_cipher` from
`Secret_code_generator.py`.

The text is modelled as a `List Char` (a Python `str` is a sequence of
Unicode code points).  The character-classification and case functions of
Python (`str.isalpha`, `str.isupper`, `str.islower`, `str.lower`,
`str.upper`) are modelled faithfully on the Basic Latin and Latin-1
Unicode blocks (code points up to U+00FF), which cover every character
appearing in the specification's examples and in the counterexamples
below; code points above U+00FF are treated as non-alphabetic, caseless
and case-invariant by the model.

The alphabet lookup `alphabet[new_index]` is modelled by an
`Option`-valued Python string indexing function (with negative-index
wrap-around, `none` standing for `IndexError`), so that totality of the
transform is a theorem rather than an artefact of the embedding.
-/

namespace SecretCode

/-- The reference alphabet of the source, `string.ascii_lowercase`
(line 16): the 26 lowercase ASCII letters in order. -/
def ascii_lowercase : List Char :=
  ['a', 'b', 'c', 'd', 'e', 'f', 'g', 'h', 'i', 'j', 'k', 'l', 'm',
   'n', 'o', 'p', 'q', 'r', 's', 't', 'u', 'v', 'w', 'x', 'y', 'z']

/-- Python `str.isalpha` on a single character, modelled on the Basic
Latin and Latin-1 blocks: ASCII letters, plus the Latin-1 letters
U+00AA, U+00B5, U+00BA, U+00C0-U+00D6, U+00D8-U+00F6, U+00F8-U+00FF. -/
def pyIsAlpha (c : Char) : Bool :=
  let n := c.toNat
  (65 ≤ n && n ≤ 90) || (97 ≤ n && n ≤ 122) ||
  (n == 170) || (n == 181) || (n == 186) ||
  (192 ≤ n && n ≤ 214) || (216 ≤ n && n ≤ 246) || (248 ≤ n && n ≤ 255)

/-- Python `str.isupper` on a single character, modelled on the Basic
Latin and Latin-1 blocks: A-Z, À-Ö, Ø-Þ. -/
def pyIsUpper (c : Char) : Bool :=
  let n := c.toNat
  (65 ≤ n && n ≤ 90) || (192 ≤ n && n ≤ 214) || (216 ≤ n && n ≤ 222)

/-- Python `str.islower` on a single character, modelled on the Basic
Latin and Latin-1 blocks: a-z, ª, µ, º, ß-ö, ø-ÿ. -/
def pyIsLower (c : Char) : Bool :=
  let n := c.toNat
  (97 ≤ n && n ≤ 122) || (n == 170) || (n == 181) || (n == 186) ||
  (223 ≤ n && n ≤ 246) || (248 ≤ n && n ≤ 255)

/-- Python `str.lower` on a single character, modelled on the Basic
Latin and Latin-1 blocks: an uppercase letter moves down by 32 code
points, every other character is unchanged. -/
def pyLower (c : Char) : Char :=
  if pyIsUpper c then Char.ofNat (c.toNat + 32) else c

/-- Python `str.upper` on a single character, modelled on the ASCII
range (the program only ever applies it to letters of
`ascii_lowercase`, the `new_char` of line 45). -/
def pyUpper (c : Char) : Char :=
  if 97 ≤ c.toNat && c.toNat ≤ 122 then Char.ofNat (c.toNat - 32) else c

/-- Index of the first occurrence of a character in a list, if any. -/
def findIdxA (c : Char) : List Char → Option Nat
  | [] => none
  | x :: xs => if x = c then some 0 else (findIdxA c xs).map (fun i => i + 1)

/-- Python `str.find` for a single-character needle (line 32): the index
of the first occurrence, and -1 when the character does not occur. -/
def strFind (l : List Char) (c : Char) : Int :=
  match findIdxA c l with
  | some i => (i : Int)
  | none => -1

/-- Python string indexing `s[i]` (line 41), including the wrap-around
for negative indices; `none` models an `IndexError`. -/
def pyStrIndex? (l : List Char) (i : Int) : Option Char :=
  if 0 ≤ i then l.get? i.toNat
  else if 0 ≤ i + (l.length : Int) then l.get? (i + (l.length : Int)).toNat
  else none

/-- Line 20 of the source: `shift %= 26`.  Lean's `Int` `%` is Euclidean
modulo, which for the positive modulus 26 agrees with Python's floor
modulo: the result is always in [0, 26). -/
def normShift (shift : Int) : Int := shift % 26

/-- The body of the per-character loop, lines 29-50 of the source:
alphabetic characters are looked up case-insensitively in the alphabet,
shifted, and re-cased; every other character is passed through. -/
def shiftChar? (s : Int) (c : Char) : Option Char :=
  if pyIsAlpha c then
    (pyStrIndex? ascii_lowercase ((strFind ascii_lowercase (pyLower c) + s) % 26)).map
      (fun new_char => if pyIsUpper c then pyUpper new_char else new_char)
  else
    some c

/-- The loop of lines 27-50: process each character in order and
concatenate the results. -/
def cipherLoop (s : Int) : List Char → Option (List Char)
  | [] => some []
  | c :: rest =>
    match shiftChar? s c, cipherLoop s rest with
    | some d, some ds => some (d :: ds)
    | _, _ => none

/-- `caesar_cipher(text, shift, direction)`, lines 3-52 of the source:
normalize the shift modulo 26, negate it when `direction == 'decode'`,
then apply the per-character loop. -/
def caesar_cipher (text : List Char) (shift : Int) (direction : String) :
    Option (List Char) :=
  let shift1 := normShift shift
  let shift2 := if direction = "decode" then shift1 * (-1) else shift1
  cipherLoop shift2 text

/-- The effective per-character shift used by `caesar_cipher`. -/
def effShift (shift : Int) (direction : String) : Int :=
  if direction = "decode" then (normShift shift) * (-1) else normShift shift

/-- The total per-character transform (the lookup never fails; see the
totality theorem). -/
def shiftCharRun (s : Int) (c : Char) : Char := (shiftChar? s c).getD c

/-- Membership in the 26-letter Latin alphabet, in either case. -/
def isAsciiLetter (c : Char) : Bool :=
  (65 ≤ c.toNat && c.toNat ≤ 90) || (97 ≤ c.toNat && c.toNat ≤ 122)

lemma pyStrIndex?_alphabet (j : Nat) (h : j < 26) :
    pyStrIndex? ascii_lowercase (j : Int) = some (Char.ofNat (97 + j)) := by
  revert j
  decide

lemma pyStrIndex?_alphabet_int (i : Int) (h0 : 0 ≤ i) (h : i < 26) :
    pyStrIndex? ascii_lowercase i = some (Char.ofNat (97 + i.toNat)) := by
  have hj : i.toNat < 26 := by omega
  have hcast : ((i.toNat : Nat) : Int) = i := by omega
  have := pyStrIndex?_alphabet i.toNat hj
  rw [hcast] at this
  exact this

lemma strFind_alphabet (j : Nat) (h : j < 26) :
    strFind ascii_lowercase (Char.ofNat (97 + j)) = (j : Int) := by
  revert j
  decide

lemma ofNat_lower_props (j : Nat) (h : j < 26) :
    pyIsAlpha (Char.ofNat (97 + j)) = true ∧
    pyIsUpper (Char.ofNat (97 + j)) = false ∧
    pyIsLower (Char.ofNat (97 + j)) = true ∧
    pyLower (Char.ofNat (97 + j)) = Char.ofNat (97 + j) ∧
    pyUpper (Char.ofNat (97 + j)) = Char.ofNat (65 + j) ∧
    (Char.ofNat (97 + j)).toNat = 97 + j := by
  revert j
  decide

lemma ofNat_upper_props (j : Nat) (h : j < 26) :
    pyIsAlpha (Char.ofNat (65 + j)) = true ∧
    pyIsUpper (Char.ofNat (65 + j)) = true ∧
    pyIsLower (Char.ofNat (65 + j)) = false ∧
    pyLower (Char.ofNat (65 + j)) = Char.ofNat (97 + j) ∧
    (Char.ofNat (65 + j)).toNat = 65 + j := by
  revert j
  decide

lemma char_eq_ofNat (c : Char) (n : Nat) (hn : c.toNat = n) : c = Char.ofNat n := by
  rw [← hn]
  exact (Char.ofNat_toNat c).symm

lemma shiftChar?_isSome (s : Int) (c : Char) : (shiftChar? s c).isSome = true := by
  unfold shiftChar?
  by_cases h : pyIsAlpha c
  · have h0 : 0 ≤ (strFind ascii_lowercase (pyLower c) + s) % 26 :=
      Int.emod_nonneg _ (by norm_num)
    have h26 : (strFind ascii_lowercase (pyLower c) + s) % 26 < 26 :=
      Int.emod_lt_of_pos _ (by norm_num)
    rw [if_pos h, pyStrIndex?_alphabet_int _ h0 h26]
    rfl
  · simp [h]

lemma cipherLoop_eq_map (s : Int) (t : List Char) :
    cipherLoop s t = some (t.map (shiftCharRun s)) := by
  induction t with
  | nil => rfl
  | cons c rest ih =>
    have h := shiftChar?_isSome s c
    cases hsc : shiftChar? s c with
    | none => rw [hsc] at h; simp at h
    | some d =>
      simp only [cipherLoop, hsc, ih, List.map_cons, shiftCharRun]
      rfl

lemma caesar_cipher_eq_map (t : List Char) (k : Int) (d : String) :
    caesar_cipher t k d = some (t.map (shiftCharRun (effShift k d))) := by
  unfold caesar_cipher effShift
  by_cases hd : d = "decode"
  · simp only [hd, if_true]
    exact cipherLoop_eq_map _ t
  · simp only [hd, if_false]
    exact cipherLoop_eq_map _ t

lemma shiftChar?_congr (s s' : Int) (h : s % 26 = s' % 26) (c : Char) :
    shiftChar? s c = shiftChar? s' c := by
  unfold shiftChar?
  have he : (strFind ascii_lowercase (pyLower c) + s) % 26 =
      (strFind ascii_lowercase (pyLower c) + s') % 26 := by omega
  rw [he]

lemma shiftChar?_lower (s : Int) (c : Char) (h1 : 97 ≤ c.toNat) (h2 : c.toNat ≤ 122) :
    shiftChar? s c =
      some (Char.ofNat (97 + ((((c.toNat : Int) - 97) + s) % 26).toNat)) := by
  have hjlt : c.toNat - 97 < 26 := by omega
  have hc : c = Char.ofNat (97 + (c.toNat - 97)) := char_eq_ofNat c _ (by omega)
  obtain ⟨ha, hu, _, hl, _, ht⟩ := ofNat_lower_props (c.toNat - 97) hjlt
  conv_lhs => rw [hc]
  unfold shiftChar?
  rw [if_pos ha, hl, strFind_alphabet _ hjlt]
  have h0 : 0 ≤ (((c.toNat - 97 : Nat) : Int) + s) % 26 := Int.emod_nonneg _ (by norm_num)
  have h26 : (((c.toNat - 97 : Nat) : Int) + s) % 26 < 26 := Int.emod_lt_of_pos _ (by norm_num)
  rw [pyStrIndex?_alphabet_int _ h0 h26, Option.map_some', hu]
  have harith : (((c.toNat - 97 : Nat) : Int) + s) % 26 =
      (((c.toNat : Int) - 97) + s) % 26 := by omega
  rw [harith]
  simp only [Bool.false_eq_true, if_false]

lemma shiftChar?_upper (s : Int) (c : Char) (h1 : 65 ≤ c.toNat) (h2 : c.toNat ≤ 90) :
    shiftChar? s c =
      some (Char.ofNat (65 + ((((c.toNat : Int) - 65) + s) % 26).toNat)) := by
  have hjlt : c.toNat - 65 < 26 := by omega
  have hc : c = Char.ofNat (65 + (c.toNat - 65)) := char_eq_ofNat c _ (by omega)
  obtain ⟨ha, hu, _, hl, _⟩ := ofNat_upper_props (c.toNat - 65) hjlt
  conv_lhs => rw [hc]
  unfold shiftChar?
  rw [if_pos ha, hl, strFind_alphabet _ hjlt]
  have h0 : 0 ≤ (((c.toNat - 65 : Nat) : Int) + s) % 26 := Int.emod_nonneg _ (by norm_num)
  have h26 : (((c.toNat - 65 : Nat) : Int) + s) % 26 < 26 := Int.emod_lt_of_pos _ (by norm_num)
  rw [pyStrIndex?_alphabet_int _ h0 h26, Option.map_some', hu, if_pos rfl]
  have hup := (ofNat_lower_props ((((c.toNat - 65 : Nat) : Int) + s) % 26).toNat
    (by omega)).2.2.2.2.1
  rw [hup]
  have harith : (((c.toNat - 65 : Nat) : Int) + s) % 26 =
      (((c.toNat : Int) - 65) + s) % 26 := by omega
  rw [harith]

lemma shiftCharRun_nonalpha (s : Int) (c : Char) (h : pyIsAlpha c = false) :
    shiftCharRun s c = c := by
  unfold shiftCharRun shiftChar?
  rw [if_neg (by simp [h])]
  rfl

lemma shiftCharRun_lower (s : Int) (c : Char) (h1 : 97 ≤ c.toNat) (h2 : c.toNat ≤ 122) :
    shiftCharRun s c =
      Char.ofNat (97 + ((((c.toNat : Int) - 97) + s) % 26).toNat) := by
  unfold shiftCharRun
  rw [shiftChar?_lower s c h1 h2]
  rfl

lemma shiftCharRun_upper (s : Int) (c : Char) (h1 : 65 ≤ c.toNat) (h2 : c.toNat ≤ 90) :
    shiftCharRun s c =
      Char.ofNat (65 + ((((c.toNat : Int) - 65) + s) % 26).toNat) := by
  unfold shiftCharRun
  rw [shiftChar?_upper s c h1 h2]
  rfl

lemma roundtrip_char_lower (s : Int) (c : Char) (h1 : 97 ≤ c.toNat) (h2 : c.toNat ≤ 122) :
    shiftCharRun (-s) (shiftCharRun s c) = c := by
  rw [shiftCharRun_lower s c h1 h2]
  have hjlt : ((((c.toNat : Int) - 97) + s) % 26).toNat < 26 := by omega
  have ht := (ofNat_lower_props _ hjlt).2.2.2.2.2
  rw [shiftCharRun_lower (-s) _ (by rw [ht]; omega) (by rw [ht]; omega), ht]
  have harith : 97 + (((((97 + ((((c.toNat : Int) - 97) + s) % 26).toNat : Nat) : Int) - 97) +
      -s) % 26).toNat = c.toNat := by omega
  rw [harith, Char.ofNat_toNat]

lemma roundtrip_char_upper (s : Int) (c : Char) (h1 : 65 ≤ c.toNat) (h2 : c.toNat ≤ 90) :
    shiftCharRun (-s) (shiftCharRun s c) = c := by
  rw [shiftCharRun_upper s c h1 h2]
  have hjlt : ((((c.toNat : Int) - 65) + s) % 26).toNat < 26 := by omega
  have ht := (ofNat_upper_props _ hjlt).2.2.2.2
  rw [shiftCharRun_upper (-s) _ (by rw [ht]; omega) (by rw [ht]; omega), ht]
  have harith : 65 + (((((65 + ((((c.toNat : Int) - 65) + s) % 26).toNat : Nat) : Int) - 65) +
      -s) % 26).toNat = c.toNat := by omega
  rw [harith, Char.ofNat_toNat]

lemma isAsciiLetter_cases (c : Char) (h : isAsciiLetter c = true) :
    (65 ≤ c.toNat ∧ c.toNat ≤ 90) ∨ (97 ≤ c.toNat ∧ c.toNat ≤ 122) := by
  simpa [isAsciiLetter, Bool.or_eq_true, Bool.and_eq_true, decide_eq_true_eq] using h

lemma roundtrip_char (s : Int) (c : Char)
    (h : pyIsAlpha c = true → isAsciiLetter c = true) :
    shiftCharRun (-s) (shiftCharRun s c) = c := by
  by_cases ha : pyIsAlpha c
  · rcases isAsciiLetter_cases c (h ha) with ⟨h1, h2⟩ | ⟨h1, h2⟩
    · exact roundtrip_char_upper s c h1 h2
    · exact roundtrip_char_lower s c h1 h2
  · have ha' : pyIsAlpha c = false := by simpa using ha
    rw [shiftCharRun_nonalpha s c ha', shiftCharRun_nonalpha (-s) c ha']

lemma map_id_of_forall (f : Char → Char) (t : List Char) (h : ∀ c ∈ t, f c = c) :
    t.map f = t := by
  induction t with
  | nil => rfl
  | cons c rest ih =>
    simp only [List.map_cons, h c (by simp), ih (fun x hx => h x (by simp [hx]))]

lemma shiftCharRun_congr (s s' : Int) (h : s % 26 = s' % 26) (c : Char) :
    shiftCharRun s c = shiftCharRun s' c := by
  unfold shiftCharRun
  rw [shiftChar?_congr s s' h c]

lemma isAsciiLetter_ofNat (j : Nat) (h : j < 26) :
    isAsciiLetter (Char.ofNat (97 + j)) = true ∧
    isAsciiLetter (Char.ofNat (65 + j)) = true := by
  revert j
  decide

lemma shiftCharRun_alpha_isAscii (s : Int) (c : Char) (ha : pyIsAlpha c = true) :
    isAsciiLetter (shiftCharRun s c) = true := by
  unfold shiftCharRun shiftChar?
  have h0 : 0 ≤ (strFind ascii_lowercase (pyLower c) + s) % 26 :=
    Int.emod_nonneg _ (by norm_num)
  have h26 : (strFind ascii_lowercase (pyLower c) + s) % 26 < 26 :=
    Int.emod_lt_of_pos _ (by norm_num)
  rw [if_pos ha, pyStrIndex?_alphabet_int _ h0 h26, Option.map_some', Option.getD_some]
  have hjlt : ((strFind ascii_lowercase (pyLower c) + s) % 26).toNat < 26 := by omega
  by_cases hup : pyIsUpper c
  · rw [if_pos hup, (ofNat_lower_props _ hjlt).2.2.2.2.1]
    exact (isAsciiLetter_ofNat _ hjlt).2
  · rw [if_neg hup]
    exact (isAsciiLetter_ofNat _ hjlt).1

lemma not_upper_of_lower (c : Char) (h : pyIsLower c = true) : pyIsUpper c = false := by
  simp only [pyIsLower, Bool.or_eq_true, Bool.and_eq_true, decide_eq_true_eq,
    beq_iff_eq] at h
  rw [Bool.eq_false_iff]
  intro hu
  simp only [pyIsUpper, Bool.or_eq_true, Bool.and_eq_true, decide_eq_true_eq] at hu
  omega

lemma shiftCharRun_alpha_case (s : Int) (c : Char) (ha : pyIsAlpha c = true) :
    (pyIsUpper c = true → pyIsUpper (shiftCharRun s c) = true) ∧
    (pyIsLower c = true → pyIsLower (shiftCharRun s c) = true) := by
  unfold shiftCharRun shiftChar?
  have h0 : 0 ≤ (strFind ascii_lowercase (pyLower c) + s) % 26 :=
    Int.emod_nonneg _ (by norm_num)
  have h26 : (strFind ascii_lowercase (pyLower c) + s) % 26 < 26 :=
    Int.emod_lt_of_pos _ (by norm_num)
  rw [if_pos ha, pyStrIndex?_alphabet_int _ h0 h26, Option.map_some', Option.getD_some]
  have hjlt : ((strFind ascii_lowercase (pyLower c) + s) % 26).toNat < 26 := by omega
  by_cases hup : pyIsUpper c
  · rw [if_pos hup, (ofNat_lower_props _ hjlt).2.2.2.2.1]
    refine ⟨fun _ => (ofNat_upper_props _ hjlt).2.1, fun hlo => ?_⟩
    rw [not_upper_of_lower c hlo] at hup
    exact absurd hup (by simp)
  · rw [if_neg hup]
    exact ⟨fun h => absurd h hup, fun _ => (ofNat_lower_props _ hjlt).2.2.1⟩

lemma shiftCharRun_zero (c : Char)
    (h : pyIsAlpha c = true → isAsciiLetter c = true) :
    shiftCharRun 0 c = c := by
  by_cases ha : pyIsAlpha c
  · rcases isAsciiLetter_cases c (h ha) with ⟨h1, h2⟩ | ⟨h1, h2⟩
    · rw [shiftCharRun_upper 0 c h1 h2]
      have harith : 65 + ((((c.toNat : Int) - 65) + 0) % 26).toNat = c.toNat := by omega
      rw [harith, Char.ofNat_toNat]
    · rw [shiftCharRun_lower 0 c h1 h2]
      have harith : 97 + ((((c.toNat : Int) - 97) + 0) % 26).toNat = c.toNat := by omega
      rw [harith, Char.ofNat_toNat]
  · exact shiftCharRun_nonalpha 0 c (by simpa using ha)

example : caesar_cipher ("Hello, World!".toList) 3 ("encode") =
    some ("Khoor, Zruog!".toList) := by decide

example : caesar_cipher ("Khoor, Zruog!".toList) 3 ("decode") =
    some ("Hello, World!".toList) := by decide

example : caesar_cipher ("abcXYZ".toList) 2 ("encode") =
    some ("cdeZAB".toList) := by decide

example : caesar_cipher ("abc".toList) (-2) ("encode") =
    some ("yza".toList) := by decide

example : caesar_cipher ['é'] 0 ("encode") = some ['z'] := by decide

example : caesar_cipher ['É'] 0 ("encode") = some ['Z'] := by decide

example : caesar_cipher ['é'] 1 ("encode") = some ['a'] := by decide

example : caesar_cipher ['a'] 1 ("decode") = some ['z'] := by decide


lemma effShift_not_decode (k : Int) (d : String) (h : d ≠ "decode") :
    effShift k d = normShift k := by
  unfold effShift
  rw [if_neg h]

lemma effShift_decode (k : Int) : effShift k ("decode") = normShift k * (-1) := by
  unfold effShift
  rw [if_pos rfl]

/-- Claim C1 (counterexample): the round-trip law fails on the code as
stated.  The letter é is alphabetic for Python, so for the text "é" and
shift 1 the forward transform yields "a" and decoding "a" with shift 1
yields "z", not "é". -/
theorem roundtrip_counterexample :
    (caesar_cipher ['é'] 1 ("encode")).bind (fun u => caesar_cipher u 1 ("decode")) =
      some ['z'] ∧ (['z'] : List Char) ≠ ['é'] := by
  decide

/-- Claim C1 (amended): for every text T whose alphabetic characters all
lie in the 26-letter Latin alphabet, and every integer k, applying the
transform forward with shift k and then in reverse with the same shift k
reproduces T exactly. -/
theorem roundtrip_law (t : List Char) (k : Int)
    (h : ∀ c ∈ t, pyIsAlpha c = true → isAsciiLetter c = true) :
    (caesar_cipher t k ("encode")).bind (fun u => caesar_cipher u k ("decode")) =
      some t := by
  rw [caesar_cipher_eq_map]
  show caesar_cipher (t.map (shiftCharRun (effShift k ("encode")))) k ("decode") = some t
  rw [caesar_cipher_eq_map, List.map_map]
  congr 1
  apply map_id_of_forall
  intro c hc
  simp only [Function.comp_apply]
  rw [effShift_decode, effShift_not_decode k _ (by decide)]
  have hneg : normShift k * (-1) = -(normShift k) := by ring
  rw [hneg]
  exact roundtrip_char (normShift k) c (h c hc)

theorem roundtrip_law_witness :
    (∀ c ∈ (['a', 'Z', '!'] : List Char), pyIsAlpha c = true → isAsciiLetter c = true) ∧
    (caesar_cipher ['a', 'Z', '!'] 3 ("encode")).bind
      (fun u => caesar_cipher u 3 ("decode")) = some ['a', 'Z', '!'] :=
  ⟨by decide, roundtrip_law ['a', 'Z', '!'] 3 (by decide)⟩

/-- Claim C2 (counterexample): é is alphabetic for Python but outside the
26-letter Latin alphabet, and it is NOT passed through unchanged: with
shift 0 it is mapped to z. -/
theorem nonlatin_passthrough_counterexample :
    pyIsAlpha 'é' = true ∧ isAsciiLetter 'é' = false ∧
    caesar_cipher ['é'] 0 ("encode") = some ['z'] ∧ ('z' : Char) ≠ 'é' := by
  decide

/-- Claim C2 (amended): an alphabetic letter outside the 26-letter Latin
alphabet is NOT passed through unchanged: at its position the output
holds a letter of the 26-letter Latin alphabet, which differs from the
original character. -/
theorem nonlatin_letters_substituted (t : List Char) (k : Int) (d : String)
    (u : List Char) (i : Nat) (c : Char)
    (hu : caesar_cipher t k d = some u) (hc : t.get? i = some c)
    (ha : pyIsAlpha c = true) (hna : isAsciiLetter c = false) :
    ∃ e, u.get? i = some e ∧ isAsciiLetter e = true ∧ e ≠ c := by
  rw [caesar_cipher_eq_map] at hu
  have hu' : t.map (shiftCharRun (effShift k d)) = u := Option.some.inj hu
  subst hu'
  refine ⟨shiftCharRun (effShift k d) c, ?_,
    shiftCharRun_alpha_isAscii _ c ha, ?_⟩
  · rw [List.get?_map, hc]
    rfl
  · intro he
    have hascii := shiftCharRun_alpha_isAscii (effShift k d) c ha
    rw [he, hna] at hascii
    exact absurd hascii (by simp)

theorem nonlatin_letters_substituted_witness :
    ∃ e, (['c'] : List Char).get? 0 = some e ∧ isAsciiLetter e = true ∧ e ≠ 'é' :=
  nonlatin_letters_substituted ['é'] 3 ("encode") ['c'] 0 'é' (by decide) (by decide)
    (by decide) (by decide)

/-- Claim C3: for every text, every integer shift and either direction,
the transform succeeds and its output has exactly the same length as the
input. -/
theorem length_preservation (t : List Char) (k : Int) (d : String) :
    ∃ u, caesar_cipher t k d = some u ∧ u.length = t.length :=
  ⟨t.map (shiftCharRun (effShift k d)), caesar_cipher_eq_map t k d, by simp⟩

/-- Claim C4: every non-alphabetic character of the input is copied
identically to the output at the same position. -/
theorem nonalpha_passthrough (t : List Char) (k : Int) (d : String)
    (u : List Char) (i : Nat) (c : Char)
    (hu : caesar_cipher t k d = some u) (hc : t.get? i = some c)
    (hna : pyIsAlpha c = false) : u.get? i = some c := by
  rw [caesar_cipher_eq_map] at hu
  have hu' : t.map (shiftCharRun (effShift k d)) = u := Option.some.inj hu
  subst hu'
  rw [List.get?_map, hc]
  simp [shiftCharRun_nonalpha _ _ hna]

theorem nonalpha_passthrough_witness :
    caesar_cipher ['1'] 3 ("encode") = some ['1'] ∧
    (['1'] : List Char).get? 0 = some '1' :=
  ⟨by decide, nonalpha_passthrough ['1'] 3 ("encode") ['1'] 0 '1' (by decide)
    (by decide) (by decide)⟩

/-- Claim C5: every alphabetic character maps to an output character at
the same position whose case matches: an uppercase letter yields an
uppercase letter and a lowercase letter yields a lowercase letter. -/
theorem case_preservation (t : List Char) (k : Int) (d : String)
    (u : List Char) (i : Nat) (c : Char)
    (hu : caesar_cipher t k d = some u) (hc : t.get? i = some c)
    (ha : pyIsAlpha c = true) :
    ∃ e, u.get? i = some e ∧ (pyIsUpper c = true → pyIsUpper e = true) ∧
      (pyIsLower c = true → pyIsLower e = true) := by
  rw [caesar_cipher_eq_map] at hu
  have hu' : t.map (shiftCharRun (effShift k d)) = u := Option.some.inj hu
  subst hu'
  refine ⟨shiftCharRun (effShift k d) c, ?_, ?_, ?_⟩
  · rw [List.get?_map, hc]
    rfl
  · exact (shiftCharRun_alpha_case _ c ha).1
  · exact (shiftCharRun_alpha_case _ c ha).2

theorem case_preservation_witness :
    ∃ e, (['B'] : List Char).get? 0 = some e ∧
      (pyIsUpper 'A' = true → pyIsUpper e = true) ∧
      (pyIsLower 'A' = true → pyIsLower e = true) :=
  case_preservation ['A'] 1 ("encode") ['B'] 0 'A' (by decide) (by decide) (by decide)

/-- Claim C6: shift normalization uses floor modulo: for every negative
integer k the normalized shift (which is the effective forward shift)
lies in [0, 26), is congruent to k modulo 26, and in particular
transforming "abc" forward with shift -2 yields "yza". -/
theorem negative_shift_floor_mod (k : Int) (hk : k < 0) :
    (0 ≤ normShift k ∧ normShift k < 26 ∧ (26 : Int) ∣ (k - normShift k)) ∧
    effShift k ("encode") = normShift k ∧
    caesar_cipher ['a', 'b', 'c'] (-2) ("encode") = some ['y', 'z', 'a'] := by
  refine ⟨⟨Int.emod_nonneg _ (by norm_num), Int.emod_lt_of_pos _ (by norm_num), ?_⟩,
    effShift_not_decode k _ (by decide), by decide⟩
  unfold normShift
  omega

theorem negative_shift_floor_mod_witness :
    ((-2 : Int) < 0) ∧
    ((0 ≤ normShift (-2) ∧ normShift (-2) < 26 ∧
      (26 : Int) ∣ ((-2) - normShift (-2))) ∧
     effShift (-2) ("encode") = normShift (-2) ∧
     caesar_cipher ['a', 'b', 'c'] (-2) ("encode") = some ['y', 'z', 'a']) :=
  ⟨by decide, negative_shift_floor_mod (-2) (by decide)⟩

/-- Claim C7: the forward transform with shift k equals the forward
transform with shift k + 26, for every text and every integer k. -/
theorem shift_periodicity (t : List Char) (k : Int) :
    caesar_cipher t k ("encode") = caesar_cipher t (k + 26) ("encode") := by
  rw [caesar_cipher_eq_map, caesar_cipher_eq_map]
  have hfun : shiftCharRun (effShift k ("encode")) =
      shiftCharRun (effShift (k + 26) ("encode")) := by
    funext c
    apply shiftCharRun_congr
    rw [effShift_not_decode k _ (by decide), effShift_not_decode (k + 26) _ (by decide)]
    unfold normShift
    omega
  rw [hfun]

/-- Claim C8 (counterexample): a zero shift is not the identity on every
text: the alphabetic letter É (outside the Latin 26) becomes Z. -/
theorem zero_shift_counterexample :
    caesar_cipher ['É'] 0 ("encode") = some ['Z'] ∧ (['Z'] : List Char) ≠ ['É'] := by
  decide

/-- Claim C8 (amended): a zero shift is the identity on every text whose
alphabetic characters all lie in the 26-letter Latin alphabet; in
particular forward shift 0 on "abc" gives "abc", and the empty text with
shift 5 gives the empty text. -/
theorem zero_shift_identity (t : List Char)
    (h : ∀ c ∈ t, pyIsAlpha c = true → isAsciiLetter c = true) :
    caesar_cipher t 0 ("encode") = some t ∧
    caesar_cipher ['a', 'b', 'c'] 0 ("encode") = some ['a', 'b', 'c'] ∧
    caesar_cipher ([] : List Char) 5 ("encode") = some [] := by
  refine ⟨?_, by decide, by decide⟩
  rw [caesar_cipher_eq_map]
  congr 1
  apply map_id_of_forall
  intro c hc
  rw [effShift_not_decode 0 _ (by decide)]
  have h0 : normShift 0 = 0 := by decide
  rw [h0]
  exact shiftCharRun_zero c (h c hc)

theorem zero_shift_identity_witness :
    (∀ c ∈ (['a'] : List Char), pyIsAlpha c = true → isAsciiLetter c = true) ∧
    (caesar_cipher ['a'] 0 ("encode") = some ['a'] ∧
     caesar_cipher ['a', 'b', 'c'] 0 ("encode") = some ['a', 'b', 'c'] ∧
     caesar_cipher ([] : List Char) 5 ("encode") = some []) :=
  ⟨by decide, zero_shift_identity ['a'] (by decide)⟩

/-- Claim C9: the transform is total: for every text, every integer shift
and every direction string it returns a result (in particular the
alphabet index lookup is always in range, so no branch is undefined). -/
theorem transform_total (t : List Char) (k : Int) (d : String) :
    (caesar_cipher t k d).isSome = true := by
  rw [caesar_cipher_eq_map]
  rfl

/-- Claim C10: the direction argument is compared only against the exact
string decode: any other direction value produces the forward result,
and decoding with shift k equals encoding with shift -k. -/
theorem direction_flag_behavior (t : List Char) (k : Int) (d : String)
    (hd : d ≠ "decode") :
    caesar_cipher t k d = caesar_cipher t k ("encode") ∧
    caesar_cipher t k ("decode") = caesar_cipher t (-k) ("encode") := by
  constructor
  · rw [caesar_cipher_eq_map, caesar_cipher_eq_map,
      effShift_not_decode k d hd, effShift_not_decode k _ (by decide)]
  · rw [caesar_cipher_eq_map, caesar_cipher_eq_map]
    have hfun : shiftCharRun (effShift k ("decode")) =
        shiftCharRun (effShift (-k) ("encode")) := by
      funext c
      apply shiftCharRun_congr
      rw [effShift_decode, effShift_not_decode (-k) _ (by decide)]
      unfold normShift
      omega
    rw [hfun]

theorem direction_flag_behavior_witness :
    (("DECODE" : String) ≠ "decode") ∧
    (caesar_cipher ['a'] 1 ("DECODE") = caesar_cipher ['a'] 1 ("encode") ∧
     caesar_cipher ['a'] 1 ("decode") = caesar_cipher ['a'] (-1) ("encode")) :=
  ⟨by decide, direction_flag_behavior ['a'] 1 ("DECODE") (by decide)⟩

end SecretCode
